import Mathlib

-- Shallow embedding of the iga toroidal cellular-automaton engine
-- (src/iga/engine.py and src/iga/cli.py), together with proofs about it.

namespace IGA

/-- The three cell states of the automaton (engine.py, class CellState). -/
inductive CellState where
  | DEAD
  | ALIVE
  | SUPERPOSITION
deriving DecidableEq, Repr

/-- Integer grid position (engine.py, class Point); equality is structural. -/
structure Point where
  x : Int
  y : Int
deriving DecidableEq, Repr

/-- Membership of a point in an entangled pair, as computed by the Python test
`Point(..) in entanglement` (tuple membership via structural equality). -/
def pmem (p : Point) (e : Point × Point) : Bool :=
  p == e.1 || p == e.2

/-- Configuration bundle (cli.py, class Config).  `startAliveProb` stands for the
start-alive probability parameter (its exact numeric type is irrelevant here:
it only influences the sampled random stream). -/
structure Config where
  width : Int := 24
  height : Int := 24
  maxIter : Int := 100
  ips : Int := 1
  seed : Int := 0
  startAliveProb : Int := 0
deriving DecidableEq, Repr

/-- The engine state (engine.py, class Engine).  `rng` is the seeded pseudo-random
stream, one Bool per randomized decision, and `rngIdx` counts consumed draws.
`maxIter` models `config.max_iter`, which `iterate` zeroes as its stability signal. -/
structure Engine where
  width : Int
  height : Int
  cells : List (List CellState)
  entangled : List (Point × Point)
  maxIter : Int
  rng : Nat → Bool
  rngIdx : Nat

/-- Wrapped 2-d read: `cells[y % height][x % width]` (engine.py `__getitem__`).
Out-of-range physical indices (impossible on validated grids) default to DEAD. -/
def get2d (cells : List (List CellState)) (w h : Int) (y x : Int) : CellState :=
  (cells.getD (y % h).toNat []).getD (x % w).toNat CellState.DEAD

/-- Wrapped 2-d write: `cells[y % height][x % width] = v` (engine.py `__setitem__`). -/
def set2d (cells : List (List CellState)) (w h : Int) (y x : Int) (v : CellState) :
    List (List CellState) :=
  cells.set (y % h).toNat ((cells.getD (y % h).toNat []).set (x % w).toNat v)

/-- `self[y, x]` on the engine's current cells. -/
def getCell (g : Engine) (y x : Int) : CellState :=
  get2d g.cells g.width g.height y x

/-- `self[y, x] = v` on the engine's current cells. -/
def setCellE (g : Engine) (y x : Int) (v : CellState) : Engine :=
  { g with cells := set2d g.cells g.width g.height y x v }

/-- `Engine.get_neighbours(x, y)`: the 8 Moore neighbours, each as
(wrapped-read state, raw unwrapped position), in the source's fixed order. -/
def getNeighbours (g : Engine) (x y : Int) : List (CellState × Point) :=
  [ (getCell g (y - 1) (x - 1), ⟨x - 1, y - 1⟩),
    (getCell g (y - 1) x,       ⟨x,     y - 1⟩),
    (getCell g (y - 1) (x + 1), ⟨x + 1, y - 1⟩),
    (getCell g y (x - 1),       ⟨x - 1, y⟩),
    (getCell g y (x + 1),       ⟨x + 1, y⟩),
    (getCell g (y + 1) (x - 1), ⟨x - 1, y + 1⟩),
    (getCell g (y + 1) x,       ⟨x,     y + 1⟩),
    (getCell g (y + 1) (x + 1), ⟨x + 1, y + 1⟩) ]

/-- `alive_neighbours`: how many of the 8 neighbours read as ALIVE. -/
def aliveNb (g : Engine) (x y : Int) : Nat :=
  (getNeighbours g x y).countP (fun nb => nb.1 == CellState.ALIVE)

/-- `Engine.link` on the entanglement list: silently does nothing when either
point already occurs in some pair, or the two points are equal; otherwise
appends the pair of the exact points given (no modulo reduction). -/
def linkPairs (ent : List (Point × Point)) (p q : Point) : List (Point × Point) :=
  if ent.any (fun e => pmem p e || pmem q e) then ent
  else if p = q then ent
  else ent ++ [(p, q)]

/-- `Engine.link(x1, y1, x2, y2)`. -/
def linkE (g : Engine) (x1 y1 x2 y2 : Int) : Engine :=
  { g with entangled := linkPairs g.entangled ⟨x1, y1⟩ ⟨x2, y2⟩ }

/-- `Engine.unlink` on the entanglement list: removes the first occurrence of the
exact ordered pair, if present. -/
def unlinkPairs (ent : List (Point × Point)) (p q : Point) : List (Point × Point) :=
  ent.erase (p, q)

/-- `Engine.unlink(x1, y1, x2, y2)`. -/
def unlinkE (g : Engine) (x1 y1 x2 y2 : Int) : Engine :=
  { g with entangled := unlinkPairs g.entangled ⟨x1, y1⟩ ⟨x2, y2⟩ }

/-- In-pass mutable state of `Engine.iterate`: the next-generation snapshot,
the live entanglement list, and the random-stream cursor. -/
structure PassState where
  next : List (List CellState)
  ent : List (Point × Point)
  idx : Nat

/-- `DEAD if next_cells[...] == ALIVE else ALIVE` (engine.py line 206). -/
def flipOf (c : CellState) : CellState :=
  if c = CellState.ALIVE then CellState.DEAD else CellState.ALIVE

/-- The `for entanglement in self.entangled` loop of the collapse branch
(engine.py lines 197-209), iterated by index over the list that `unlink`
mutates mid-loop, exactly as a Python for-loop over a mutating list behaves.
`fuel` only bounds the recursion; it is called with more fuel than the loop
can consume, so it never cuts the loop short. -/
def entScan (g : Engine) (p : Point) : Nat → Nat → PassState → PassState
  | 0, _, s => s
  | fuel + 1, i, s =>
    match s.ent[i]? with
    | none => s
    | some e =>
      if pmem p e then
        let other := if e.1 ≠ p then e.1 else e.2
        let next' :=
          if getCell g other.y other.x = CellState.SUPERPOSITION then
            set2d s.next g.width g.height other.y other.x
              (flipOf (get2d s.next g.width g.height p.y p.x))
          else s.next
        entScan g p fuel (i + 1) ⟨next', unlinkPairs s.ent p other, s.idx⟩
      else entScan g p fuel (i + 1) s

/-- One step of the `alive_neighbours == 4` birth loop (engine.py lines 181-187):
for an ALIVE neighbour, attempt the link, then unconditionally write
SUPERPOSITION to the birthing cell and to the neighbour's wrapped position. -/
def birthFoldF (g : Engine) (x y : Int) (t : PassState) (nb : CellState × Point) :
    PassState :=
  if nb.1 = CellState.ALIVE then
    { t with
      ent := linkPairs t.ent ⟨x, y⟩ nb.2,
      next := set2d (set2d t.next g.width g.height y x CellState.SUPERPOSITION)
                g.width g.height nb.2.y nb.2.x CellState.SUPERPOSITION }
  else t

/-- The per-cell body of the double loop in `Engine.iterate`
(engine.py lines 174-209), reading the previous generation from `g` and
writing into the pass state.  `yx` is `(y, x)`. -/
def stepCell (g : Engine) (s : PassState) (yx : Int × Int) : PassState :=
  let y := yx.1
  let x := yx.2
  let alive := aliveNb g x y
  if getCell g y x = CellState.DEAD ∧ (alive = 3 ∨ alive = 4) then
    let s1 := { s with next := set2d s.next g.width g.height y x CellState.ALIVE }
    if alive = 4 then (getNeighbours g x y).foldl (birthFoldF g x y) s1 else s1
  else if getCell g y x = CellState.ALIVE ∧ (5 < alive ∨ alive < 2) then
    { s with next := set2d s.next g.width g.height y x CellState.DEAD }
  else if getCell g y x = CellState.SUPERPOSITION ∧ 0 < alive then
    let c := if g.rng s.idx then CellState.ALIVE else CellState.DEAD
    let s1 : PassState := ⟨set2d s.next g.width g.height y x c, s.ent, s.idx + 1⟩
    entScan g ⟨x, y⟩ (s1.ent.length + 1) 0 s1
  else s

/-- The row-major enumeration `for y in range(height): for x in range(width)`. -/
def rowMajor (w h : Int) : List (Int × Int) :=
  (List.range h.toNat).flatMap
    (fun y : Nat => (List.range w.toNat).map (fun x : Nat => ((y : Int), (x : Int))))

/-- The full per-generation pass of `Engine.iterate`, before committing. -/
def runPass (g : Engine) : PassState :=
  (rowMajor g.width g.height).foldl (stepCell g) ⟨g.cells, g.entangled, g.rngIdx⟩

/-- `Engine.iterate()`: run the pass, signal stability by zeroing `max_iter`
when the next snapshot equals the previous one, and commit the next snapshot. -/
def iterate (g : Engine) : Engine :=
  let f := runPass g
  { g with
    cells := f.next
    entangled := f.ent
    rngIdx := f.idx
    maxIter := if g.cells = f.next then 0 else g.maxIter }

/-- `n` successive calls to `iterate`. -/
def iterN : Nat → Engine → Engine
  | 0, g => g
  | n + 1, g => iterN n (iterate g)

/-- Random initial population (engine.py line 94): row-major sampling, one
stream draw per cell, ALIVE on a successful draw. -/
def genCells (stream : Nat → Bool) (w h : Int) : List (List CellState) :=
  (List.range h.toNat).map (fun y =>
    (List.range w.toNat).map (fun x =>
      if stream (y * w.toNat + x) then CellState.ALIVE else CellState.DEAD))

/-- `self.width = self.width or self.config.width`: Python falsy coalescing,
under which a supplied value of 0 falls back to the config value. -/
def effDim (sup : Option Int) (dflt : Int) : Int :=
  match sup with
  | none => dflt
  | some v => if v = 0 then dflt else v

/-- `self.cells or <random generation>`: a supplied empty list is falsy and is
treated like an absent one. -/
def effCells (sup : Option (List (List CellState))) : Option (List (List CellState)) :=
  match sup with
  | none => none
  | some cs => if cs = [] then none else some cs

/-- `Engine.__post_init__` (engine.py lines 85-104): resolve defaults, sample the
initial population when no cells were supplied, then validate.  `prgOf` gives
the seeded pseudo-random stream as a function of the configuration (the real
stream is determined by `config.seed`, and the sampling outcomes additionally
by `config.start_alive_prob`).  A `ValueError` is modelled as `Except.error`
with the source's message. -/
def mkEngine (prgOf : Config → Nat → Bool) (cfg : Config)
    (width? height? : Option Int) (cells? : Option (List (List CellState)))
    (ent? : Option (List (Point × Point))) : Except String Engine :=
  let stream := prgOf cfg
  let ent := ent?.getD []
  let w := effDim width? cfg.width
  let h := effDim height? cfg.height
  let cells := match effCells cells? with
    | some cs => cs
    | none => genCells stream w h
  if w ≤ 0 then Except.error ("width must be positive")
  else if h ≤ 0 then Except.error ("height must be positive")
  else if (cells.length : Int) ≠ h then Except.error ("number of rows must equal height")
  else if cells.any (fun r => (r.length : Int) ≠ w) then
    Except.error ("number of columns must equal width")
  else Except.ok
    { width := w
      height := h
      cells := cells
      entangled := ent
      maxIter := cfg.maxIter
      rng := stream
      rngIdx := match effCells cells? with
        | some _ => 0
        | none => w.toNat * h.toNat }

/-- Whether construction succeeded. -/
def isOkE (r : Except String Engine) : Bool :=
  match r with
  | Except.ok _ => true
  | Except.error _ => false

/-- Every cell of the array is DEAD. -/
def AllDead (cells : List (List CellState)) : Prop :=
  ∀ r ∈ cells, ∀ c ∈ r, c = CellState.DEAD

instance (cells : List (List CellState)) : Decidable (AllDead cells) := by
  unfold AllDead
  infer_instance

/-- The cell array has exactly `height` rows of exactly `width` cells. -/
def ShapeOK (w h : Int) (cells : List (List CellState)) : Prop :=
  cells.length = h.toNat ∧ ∀ r ∈ cells, r.length = w.toNat

instance (w h : Int) (cells : List (List CellState)) : Decidable (ShapeOK w h cells) := by
  unfold ShapeOK
  infer_instance

/-- Two entangled pairs share no position. -/
def pairsDisjoint (e₁ e₂ : Point × Point) : Prop :=
  ∀ p : Point, (p = e₁.1 ∨ p = e₁.2) → ¬(p = e₂.1 ∨ p = e₂.2)

/-- Entanglement exclusivity: no position occurs in two distinct active pairs. -/
def Inv (ent : List (Point × Point)) : Prop :=
  List.Pairwise pairsDisjoint ent

/-- Engine states reachable from a fresh construction (no supplied entanglement
list) by any sequence of `link`, `unlink` and `iterate` calls. -/
inductive Reach : Engine → Prop where
  | base (prgOf : Config → Nat → Bool) (cfg : Config) (width? height? : Option Int)
      (cells? : Option (List (List CellState))) (g : Engine) :
      mkEngine prgOf cfg width? height? cells? none = Except.ok g → Reach g
  | link (g : Engine) (x1 y1 x2 y2 : Int) : Reach g → Reach (linkE g x1 y1 x2 y2)
  | unlink (g : Engine) (x1 y1 x2 y2 : Int) : Reach g → Reach (unlinkE g x1 y1 x2 y2)
  | iter (g : Engine) : Reach g → Reach (iterate g)

/-- The 8 Moore-neighbourhood offsets in the source's enumeration order
N-W, N, N-E, W, E, S-W, S, S-E (an `(dx, dy)` table). -/
def nOffsets : List (Int × Int) :=
  [(-1, -1), (0, -1), (1, -1), (-1, 0), (1, 0), (-1, 1), (0, 1), (1, 1)]

-- Concrete instances used by counterexamples and witnesses.

/-- A 2×2 all-dead grid. -/
def g0 : Engine :=
  { width := 2, height := 2
    cells := [[CellState.DEAD, CellState.DEAD], [CellState.DEAD, CellState.DEAD]]
    entangled := [], maxIter := 7, rng := fun _ => false, rngIdx := 0 }

/-- A 5×5 grid whose centre (2,2) is dead with exactly 4 alive neighbours,
at the four diagonal positions (1,1), (3,1), (1,3), (3,3). -/
def g5 : Engine :=
  { width := 5, height := 5
    cells :=
      [ [CellState.DEAD, CellState.DEAD,  CellState.DEAD, CellState.DEAD,  CellState.DEAD],
        [CellState.DEAD, CellState.ALIVE, CellState.DEAD, CellState.ALIVE, CellState.DEAD],
        [CellState.DEAD, CellState.DEAD,  CellState.DEAD, CellState.DEAD,  CellState.DEAD],
        [CellState.DEAD, CellState.ALIVE, CellState.DEAD, CellState.ALIVE, CellState.DEAD],
        [CellState.DEAD, CellState.DEAD,  CellState.DEAD, CellState.DEAD,  CellState.DEAD] ]
    entangled := []
    maxIter := 100
    rng := fun _ => true
    rngIdx := 0 }

/-- A 4×4 grid with an entangled pair ((1,1),(2,1)), both cells Superposed, each
observed by the single alive cell at (1,0); the random stream always answers
with the first choice (ALIVE). -/
def e2 : Engine :=
  { width := 4, height := 4
    cells :=
      [ [CellState.DEAD, CellState.ALIVE, CellState.DEAD, CellState.DEAD],
        [CellState.DEAD, CellState.SUPERPOSITION, CellState.SUPERPOSITION, CellState.DEAD],
        [CellState.DEAD, CellState.DEAD, CellState.DEAD, CellState.DEAD],
        [CellState.DEAD, CellState.DEAD, CellState.DEAD, CellState.DEAD] ]
    entangled := [(⟨1, 1⟩, ⟨2, 1⟩)]
    maxIter := 100
    rng := fun _ => true
    rngIdx := 0 }

/-- A 3×3 all-dead grid with no entanglements. -/
def g6 : Engine :=
  { width := 3, height := 3
    cells :=
      [ [CellState.DEAD, CellState.DEAD, CellState.DEAD],
        [CellState.DEAD, CellState.DEAD, CellState.DEAD],
        [CellState.DEAD, CellState.DEAD, CellState.DEAD] ]
    entangled := [], maxIter := 1, rng := fun _ => false, rngIdx := 0 }

/-- A concrete pseudo-random source that never draws a success. -/
def prgF : Config → Nat → Bool := fun _ _ => false

/-- A concrete small configuration. -/
def cfg2 : Config :=
  { width := 2, height := 2, maxIter := 5, ips := 1, seed := 0, startAliveProb := 0 }

/-- A 3×3 grid with (1,1) Alive having exactly 2 alive neighbours, and no
dead cell with exactly 4 alive neighbours. -/
def g3w : Engine :=
  { width := 3, height := 3
    cells :=
      [ [CellState.ALIVE, CellState.DEAD, CellState.DEAD],
        [CellState.DEAD, CellState.ALIVE, CellState.ALIVE],
        [CellState.DEAD, CellState.DEAD, CellState.DEAD] ]
    entangled := [], maxIter := 9, rng := fun _ => false, rngIdx := 0 }

/-- The engine produced by constructing from `cfg2` with no supplied cells. -/
def gw : Engine :=
  { width := 2, height := 2
    cells := [[CellState.DEAD, CellState.DEAD], [CellState.DEAD, CellState.DEAD]]
    entangled := [], maxIter := 5, rng := fun _ => false, rngIdx := 4 }

-- ------------------------------------------------------------------
-- Theorems
-- ------------------------------------------------------------------

/-- Claim C3, counterexample: the first (N-W) entry returned by
`get_neighbours(0, 0)` on a 3×3 grid carries the raw position (-1,-1), which is
not reduced into [0, width) × [0, height) (the wrapped position would be (2,2)),
refuting the claim that each entry is paired with the neighbour's wrapped
position. -/
theorem neighbours_position_not_wrapped :
    ((getNeighbours g6 0 0).getD 0 (CellState.DEAD, ⟨0, 0⟩)).2 = (⟨-1, -1⟩ : Point) ∧
    ¬ (0 ≤ ((getNeighbours g6 0 0).getD 0 (CellState.DEAD, ⟨0, 0⟩)).2.x) ∧
    ((-1 : Int) % g6.width) = 2 := by
  decide

/-- Claim C3, amended: `get_neighbours(x, y)` returns exactly 8 entries, in the
fixed order N-W, N, N-E, W, E, S-W, S, S-E, each pairing the state read with
wraparound at the neighbouring position with that neighbour's RAW (unwrapped)
offset position `(x ± 1, y ± 1)`. -/
theorem neighbours_raw_offsets (g : Engine) (x y : Int) :
    getNeighbours g x y =
      nOffsets.map (fun o => (getCell g (y + o.2) (x + o.1), ⟨x + o.1, y + o.2⟩)) ∧
    (getNeighbours g x y).length = 8 ∧
    ∀ nb ∈ getNeighbours g x y, nb.1 = getCell g nb.2.y nb.2.x := by
  refine ⟨?_, rfl, ?_⟩
  · simp only [getNeighbours, nOffsets, List.map]
    norm_num [Int.sub_eq_add_neg]
  · intro nb hnb
    simp only [getNeighbours, List.mem_cons, List.not_mem_nil, or_false] at hnb
    rcases hnb with h | h | h | h | h | h | h | h <;> subst h <;> rfl

/-- Claim C6: entangled pairs store exactly the coordinates passed to `link`
(no modulo reduction), pair membership is tested by structural equality, and
consequently coordinates denoting the same torus cell but differing numerically
are treated as distinct: on a width-3 grid, linking (0,0)-(1,0) and then
(3,0)-(4,0) yields two pairs, although 3 ≡ 0 and 4 ≡ 1 (mod width). -/
theorem entangled_pairs_raw_structural :
    (∀ (ent : List (Point × Point)) (p q : Point),
        linkPairs ent p q = ent ∨ linkPairs ent p q = ent ++ [(p, q)]) ∧
    (∀ (p a b : Point), pmem p (a, b) = true ↔ (p = a ∨ p = b)) ∧
    ((linkE (linkE g6 0 0 1 0) 3 0 4 0).entangled
        = [(⟨0, 0⟩, ⟨1, 0⟩), (⟨3, 0⟩, ⟨4, 0⟩)] ∧
      (3 : Int) % g6.width = (0 : Int) % g6.width ∧
      (4 : Int) % g6.width = (1 : Int) % g6.width) := by
  refine ⟨?_, ?_, by decide⟩
  · intro ent p q
    unfold linkPairs
    split
    · exact Or.inl rfl
    · split
      · exact Or.inl rfl
      · exact Or.inr rfl
  · intro p a b
    simp [pmem]

/-- Claim C7: wrapped access is periodic — `get(x + k*width, y + k*height)`
equals `get(x, y)`, the effective indices `y mod height` and `x mod width`
always lie in [0, height) resp. [0, width) even for negative inputs, and the
same periodicity holds for `set`. -/
theorem torus_wraparound (g : Engine) (hw : 0 < g.width) (hh : 0 < g.height)
    (x y k : Int) (v : CellState) :
    getCell g (y + k * g.height) (x + k * g.width) = getCell g y x ∧
    0 ≤ y % g.height ∧ y % g.height < g.height ∧
    0 ≤ x % g.width ∧ x % g.width < g.width ∧
    setCellE g (y + k * g.height) (x + k * g.width) v = setCellE g y x v := by
  refine ⟨?_, Int.emod_nonneg y (by omega), Int.emod_lt_of_pos y hh,
         Int.emod_nonneg x (by omega), Int.emod_lt_of_pos x hw, ?_⟩
  · unfold getCell get2d
    rw [Int.add_mul_emod_self, Int.add_mul_emod_self]
  · unfold setCellE set2d
    rw [Int.add_mul_emod_self, Int.add_mul_emod_self]

/-- Witness for `torus_wraparound` at the concrete grid `g0`, x = -3, y = 7, k = 2. -/
theorem torus_wraparound_witness :
    (0 < g0.width ∧ 0 < g0.height) ∧
    (getCell g0 (7 + 2 * g0.height) ((-3) + 2 * g0.width) = getCell g0 7 (-3) ∧
     0 ≤ (7 : Int) % g0.height ∧ (7 : Int) % g0.height < g0.height ∧
     0 ≤ (-3 : Int) % g0.width ∧ (-3 : Int) % g0.width < g0.width ∧
     setCellE g0 (7 + 2 * g0.height) ((-3) + 2 * g0.width) CellState.ALIVE
       = setCellE g0 7 (-3) CellState.ALIVE) :=
  ⟨⟨by decide, by decide⟩,
   torus_wraparound g0 (by decide) (by decide) (-3) 7 2 CellState.ALIVE⟩

/-- Claim C10: construction and every randomized decision are deterministic
functions of the configuration (width, height, seed, start-alive probability,
via the seeded stream `prgOf`), so two engines built from identical
configurations agree, after any number of `iterate()` calls, on their whole
cell arrays and entanglement lists. -/
theorem seeded_determinism (prgOf : Config → Nat → Bool) (cfg₁ cfg₂ : Config)
    (h : cfg₁ = cfg₂) (n : Nat) :
    (mkEngine prgOf cfg₁ none none none none).map
        (fun g => ((iterN n g).cells, (iterN n g).entangled))
      = (mkEngine prgOf cfg₂ none none none none).map
        (fun g => ((iterN n g).cells, (iterN n g).entangled)) := by
  subst h
  rfl

/-- Witness for `seeded_determinism` at the concrete configuration `cfg2`. -/
theorem seeded_determinism_witness :
    cfg2 = cfg2 ∧
    (mkEngine prgF cfg2 none none none none).map
        (fun g => ((iterN 1 g).cells, (iterN 1 g).entangled))
      = (mkEngine prgF cfg2 none none none none).map
        (fun g => ((iterN 1 g).cells, (iterN 1 g).entangled)) :=
  ⟨rfl, seeded_determinism prgF cfg2 cfg2 rfl 1⟩

/-- Claim C5, counterexample: constructing with a supplied width of 0 (≤ 0)
succeeds rather than failing — Python's falsy `or` replaces a zero width with
the config width before validation. -/
theorem zero_width_constructs :
    isOkE (mkEngine prgF cfg2 (some 0) none none none) = true ∧ (0 : Int) ≤ 0 := by
  decide

/-- Claim C2 (code bug), evaluation at the failing input: on `e2`, both members
of the entangled pair are Superposed with one alive observer each; after one
`iterate()` the pair is removed, but both cells collapse to ALIVE — equal, not
opposite — because the first-processed member unlinks the pair and the partner
then re-collapses independently. -/
theorem anti_correlated_collapse_fails :
    getCell e2 1 1 = CellState.SUPERPOSITION ∧
    getCell e2 1 2 = CellState.SUPERPOSITION ∧
    e2.entangled = [(⟨1, 1⟩, ⟨2, 1⟩)] ∧
    aliveNb e2 1 1 = 1 ∧ aliveNb e2 2 1 = 1 ∧
    (iterate e2).cells =
      [ [CellState.DEAD, CellState.DEAD, CellState.DEAD, CellState.DEAD],
        [CellState.DEAD, CellState.ALIVE, CellState.ALIVE, CellState.DEAD],
        [CellState.DEAD, CellState.DEAD, CellState.DEAD, CellState.DEAD],
        [CellState.DEAD, CellState.DEAD, CellState.DEAD, CellState.DEAD] ] ∧
    (iterate e2).entangled = [] := by
  decide

/-- Claim C1, counterexample: on `g5` the centre (2,2) is dead with exactly 4
alive neighbours and the link with its first-in-order alive neighbour (1,1) is
created, yet the non-first neighbour (3,1) also becomes Superposed, refuting
"exactly that cell and that first neighbour (and no other neighbour) become
Superposed". -/
theorem birth_superposes_every_alive_neighbour :
    getCell g5 2 2 = CellState.DEAD ∧ aliveNb g5 2 2 = 4 ∧
    (iterate g5).entangled = [(⟨2, 2⟩, ⟨1, 1⟩)] ∧
    getCell (iterate g5) 1 3 = CellState.SUPERPOSITION ∧
    (⟨3, 1⟩ : Point) ≠ (⟨1, 1⟩ : Point) := by
  decide

/-- Claim C9, counterexample: on `g5` the cell (1,1) is Alive with 0 alive
neighbours (0 < 2), so by the claim its next state would be Dead; instead the
birth at the dead centre (2,2) overwrites it to Superposed in the same pass. -/
theorem underpopulated_alive_cell_not_dead :
    getCell g5 1 1 = CellState.ALIVE ∧ aliveNb g5 1 1 = 0 ∧
    getCell (iterate g5) 1 1 = CellState.SUPERPOSITION := by
  decide

theorem isOkE_ok (g : Engine) : isOkE (Except.ok g) = true := rfl

theorem isOkE_error (s : String) : isOkE (Except.error s) = false := rfl

theorem genCells_length (stream : Nat → Bool) (w h : Int) :
    (genCells stream w h).length = h.toNat := by
  simp [genCells]

theorem genCells_row_length (stream : Nat → Bool) (w h : Int) :
    ∀ r ∈ genCells stream w h, r.length = w.toNat := by
  intro r hr
  simp only [genCells, List.mem_map] at hr
  obtain ⟨y, _, rfl⟩ := hr
  simp

/-- Claim C5, amended: construction fails exactly when the effective width or
effective height (supplied value unless it is 0 or absent, in which case the
config value — Python falsy coalescing) is ≤ 0, or a supplied non-empty cell
array has a row count different from the effective height or some row length
different from the effective width; a supplied empty cell array is falsy and is
replaced by random generation.  All other inputs construct successfully. -/
theorem construction_validation (prgOf : Config → Nat → Bool) (cfg : Config)
    (w? h? : Option Int) (c? : Option (List (List CellState)))
    (e? : Option (List (Point × Point))) :
    isOkE (mkEngine prgOf cfg w? h? c? e?) = true ↔
      (0 < effDim w? cfg.width ∧ 0 < effDim h? cfg.height ∧
       ∀ cs, effCells c? = some cs →
         ((cs.length : Int) = effDim h? cfg.height ∧
          ∀ r ∈ cs, (r.length : Int) = effDim w? cfg.width)) := by
  set w := effDim w? cfg.width with hwdef
  set h := effDim h? cfg.height with hhdef
  by_cases hw0 : w ≤ 0
  · simp only [mkEngine, isOkE]
    rw [if_pos hw0]
    simp only [Bool.false_eq_true, false_iff]
    rintro ⟨h1, -, -⟩
    omega
  by_cases hh0 : h ≤ 0
  · simp only [mkEngine, isOkE]
    rw [if_neg hw0, if_pos hh0]
    simp only [Bool.false_eq_true, false_iff]
    rintro ⟨-, h2, -⟩
    omega
  rcases hc : effCells c? with _ | cs
  · -- no (non-empty) cells supplied: the generated array always passes validation
    have hlen : (((genCells (prgOf cfg) w h).length : Int)) = h := by
      rw [genCells_length]
      omega
    have hany : (genCells (prgOf cfg) w h).any
        (fun r => decide ((r.length : Int) ≠ w)) = false := by
      rw [List.any_eq_false]
      intro r hr
      have := genCells_row_length (prgOf cfg) w h r hr
      simp [this]
      omega
    simp only [mkEngine, hc, isOkE]
    rw [if_neg hw0, if_neg hh0, if_neg (not_not.mpr hlen)]
    simp only [hany, Bool.false_eq_true, if_false]
    simp only [true_iff, reduceCtorEq, false_implies, implies_true, and_true]
    exact ⟨by omega, by omega⟩
  · -- non-empty cells supplied: validation checks its shape
    simp only [mkEngine, hc, isOkE]
    rw [if_neg hw0, if_neg hh0]
    by_cases hlen : (cs.length : Int) = h
    · rw [if_neg (not_not.mpr hlen)]
      by_cases hrows : ∀ r ∈ cs, (r.length : Int) = w
      · have hany : cs.any (fun r => decide ((r.length : Int) ≠ w)) = false := by
          rw [List.any_eq_false]
          intro r hr
          simp [hrows r hr]
        simp only [hany, Bool.false_eq_true, if_false, true_iff]
        refine ⟨by omega, by omega, ?_⟩
        rintro cs' hcs'
        injection hcs' with hcs'
        subst hcs'
        exact ⟨hlen, hrows⟩
      · have hany : cs.any (fun r => decide ((r.length : Int) ≠ w)) = true := by
          rw [List.any_eq_true]
          push_neg at hrows
          obtain ⟨r, hr, hrn⟩ := hrows
          exact ⟨r, hr, by simpa using hrn⟩
        simp only [hany, if_true, Bool.false_eq_true, false_iff]
        rintro ⟨-, -, h3⟩
        exact hrows fun r hr => (h3 cs rfl).2 r hr
    · rw [if_pos hlen]
      simp only [Bool.false_eq_true, false_iff]
      rintro ⟨-, -, h3⟩
      exact hlen (h3 cs rfl).1

theorem getD_allP {α : Type} {P : α → Prop} (l : List α) (d : α)
    (hl : ∀ a ∈ l, P a) (hd : P d) (i : Nat) : P (l.getD i d) := by
  induction l generalizing i with
  | nil => simpa using hd
  | cons a t ih =>
    cases i with
    | zero => exact hl a (by simp)
    | succ j =>
      simp only [List.getD_cons_succ]
      exact ih (fun b hb => hl b (by simp [hb])) j

theorem get2d_allDead {cells : List (List CellState)} (hAD : AllDead cells)
    (w h y x : Int) : get2d cells w h y x = CellState.DEAD := by
  unfold get2d
  refine getD_allP (P := fun c => c = CellState.DEAD) _ _ ?_ rfl _
  intro c hc
  refine getD_allP (P := fun r => ∀ c ∈ r, c = CellState.DEAD) cells [] hAD ?_ _ c hc
  simp

theorem aliveNb_allDead {g : Engine} (hAD : AllDead g.cells) (x y : Int) :
    aliveNb g x y = 0 := by
  simp [aliveNb, getNeighbours, getCell, get2d_allDead hAD, List.countP_cons]

theorem stepCell_allDead {g : Engine} (hAD : AllDead g.cells) (s : PassState)
    (yx : Int × Int) : stepCell g s yx = s := by
  unfold stepCell
  simp [getCell, get2d_allDead hAD, aliveNb_allDead hAD]

theorem foldl_stepCell_allDead {g : Engine} (hAD : AllDead g.cells)
    (L : List (Int × Int)) (s : PassState) : L.foldl (stepCell g) s = s := by
  induction L generalizing s with
  | nil => rfl
  | cons a t ih => rw [List.foldl_cons, stepCell_allDead hAD, ih]

/-- Claim C8: an all-Dead grid stays all-Dead after `iterate()` and the
stability signal fires (`max_iter` is zeroed); and in general, whenever the
computed next snapshot equals the previous cell array, the engine signals
stability and still commits the (unchanged) snapshot as current. -/
theorem all_dead_fixed_point (g : Engine) (hAD : AllDead g.cells) :
    AllDead (iterate g).cells ∧ (iterate g).cells = g.cells ∧
    (iterate g).maxIter = 0 ∧
    ∀ g' : Engine, (runPass g').next = g'.cells →
      (iterate g').maxIter = 0 ∧ (iterate g').cells = (runPass g').next := by
  have hpass : (runPass g).next = g.cells := by
    unfold runPass
    rw [foldl_stepCell_allDead hAD]
  refine ⟨?_, ?_, ?_, ?_⟩
  · show AllDead (runPass g).next
    rw [hpass]; exact hAD
  · show (runPass g).next = g.cells
    exact hpass
  · show (if g.cells = (runPass g).next then 0 else g.maxIter) = 0
    rw [hpass, if_pos rfl]
  · intro g' hp
    constructor
    · show (if g'.cells = (runPass g').next then 0 else g'.maxIter) = 0
      rw [hp, if_pos rfl]
    · rfl

/-- Witness for `all_dead_fixed_point` at the concrete 2×2 all-dead grid `g0`. -/
theorem all_dead_fixed_point_witness :
    AllDead g0.cells ∧ AllDead (iterate g0).cells ∧ (iterate g0).cells = g0.cells ∧
    (iterate g0).maxIter = 0 :=
  ⟨by decide, (all_dead_fixed_point g0 (by decide)).1,
   (all_dead_fixed_point g0 (by decide)).2.1,
   (all_dead_fixed_point g0 (by decide)).2.2.1⟩

theorem inv_linkPairs {ent : List (Point × Point)} (h : Inv ent) (p q : Point) :
    Inv (linkPairs ent p q) := by
  unfold linkPairs
  split
  · exact h
  · split
    · exact h
    · rename_i hany hpq
      rw [Inv, List.pairwise_append]
      refine ⟨h, by simp [pairsDisjoint], ?_⟩
      intro a ha b hb
      simp only [List.mem_singleton] at hb
      subst hb
      have hanyf : ent.any (fun e => pmem p e || pmem q e) = false := by
        simpa using hany
      have hm := List.any_eq_false.mp hanyf a ha
      simp only [pmem, Bool.or_eq_true, beq_iff_eq, not_or] at hm
      intro r hr hrc
      rcases hrc with hrc | hrc <;> rcases hr with hr | hr <;>
        subst hrc <;> subst hr <;> tauto

theorem inv_erase {ent : List (Point × Point)} (h : Inv ent) (e : Point × Point) :
    Inv (ent.erase e) :=
  List.Pairwise.sublist (List.erase_sublist e ent) h

theorem inv_entScan {g : Engine} {p : Point} (fuel : Nat) :
    ∀ (i : Nat) (s : PassState), Inv s.ent → Inv (entScan g p fuel i s).ent := by
  induction fuel with
  | zero => intro i s h; exact h
  | succ fuel ih =>
    intro i s h
    rw [entScan]
    rcases hie : s.ent[i]? with _ | e
    · exact h
    · by_cases hpm : pmem p e = true
      · simp only [hpm, if_true]
        exact ih (i + 1) _ (inv_erase h _)
      · simp only [eq_false_of_ne_true hpm, Bool.false_eq_true, if_false]
        exact ih (i + 1) s h

theorem birthFoldF_ent (g : Engine) (x y : Int) (t : PassState)
    (nb : CellState × Point) :
    (birthFoldF g x y t nb).ent =
      if nb.1 = CellState.ALIVE then linkPairs t.ent ⟨x, y⟩ nb.2 else t.ent := by
  unfold birthFoldF
  split <;> rfl

theorem inv_birthFold {g : Engine} {x y : Int} (L : List (CellState × Point)) :
    ∀ t : PassState, Inv t.ent → Inv ((L.foldl (birthFoldF g x y) t)).ent := by
  induction L with
  | nil => intro t h; exact h
  | cons nb L ih =>
    intro t h
    rw [List.foldl_cons]
    refine ih _ ?_
    rw [birthFoldF_ent]
    split
    · exact inv_linkPairs h _ _
    · exact h

theorem inv_stepCell {g : Engine} (s : PassState) (yx : Int × Int)
    (h : Inv s.ent) : Inv (stepCell g s yx).ent := by
  simp only [stepCell]
  by_cases h1 : getCell g yx.1 yx.2 = CellState.DEAD ∧
      (aliveNb g yx.2 yx.1 = 3 ∨ aliveNb g yx.2 yx.1 = 4)
  · rw [if_pos h1]
    split
    · exact inv_birthFold _ _ h
    · exact h
  · rw [if_neg h1]
    by_cases h2 : getCell g yx.1 yx.2 = CellState.ALIVE ∧
        (5 < aliveNb g yx.2 yx.1 ∨ aliveNb g yx.2 yx.1 < 2)
    · rw [if_pos h2]
      exact h
    · rw [if_neg h2]
      by_cases h3 : getCell g yx.1 yx.2 = CellState.SUPERPOSITION ∧
          0 < aliveNb g yx.2 yx.1
      · rw [if_pos h3]
        exact inv_entScan _ 0 _ h
      · rw [if_neg h3]
        exact h

theorem inv_foldl_stepCell {g : Engine} (L : List (Int × Int)) :
    ∀ s : PassState, Inv s.ent → Inv ((L.foldl (stepCell g) s)).ent := by
  induction L with
  | nil => intro s h; exact h
  | cons a L ih =>
    intro s h
    rw [List.foldl_cons]
    exact ih _ (inv_stepCell s a h)

theorem inv_iterate {g : Engine} (h : Inv g.entangled) : Inv (iterate g).entangled := by
  show Inv (runPass g).ent
  exact inv_foldl_stepCell _ _ h

theorem mkEngine_ok_entangled {prgOf : Config → Nat → Bool} {cfg : Config}
    {w? h? : Option Int} {c? : Option (List (List CellState))}
    {ent? : Option (List (Point × Point))} {g : Engine}
    (hmk : mkEngine prgOf cfg w? h? c? ent? = Except.ok g) :
    g.entangled = ent?.getD [] := by
  simp only [mkEngine] at hmk
  split at hmk
  · exact Except.noConfusion hmk
  · split at hmk
    · exact Except.noConfusion hmk
    · split at hmk
      · exact Except.noConfusion hmk
      · split at hmk
        · exact Except.noConfusion hmk
        · injection hmk with hmk
          subst hmk
          rfl

/-- Claim C4: in every state reachable from a fresh construction by link,
unlink and iterate, no position occurs in two distinct active entangled pairs;
and `link(a, b)` is a silent no-op (the entanglement list is unchanged)
whenever a = b or either endpoint already occurs in some existing pair. -/
theorem entanglement_exclusive :
    (∀ g : Engine, Reach g → Inv g.entangled) ∧
    (∀ (g : Engine) (x1 y1 x2 y2 : Int),
      ((∃ e ∈ g.entangled, pmem ⟨x1, y1⟩ e = true ∨ pmem ⟨x2, y2⟩ e = true) ∨
        (⟨x1, y1⟩ : Point) = (⟨x2, y2⟩ : Point)) →
      (linkE g x1 y1 x2 y2).entangled = g.entangled) := by
  constructor
  · intro g hg
    induction hg with
    | base prgOf cfg w? h? c? g hmk =>
        rw [mkEngine_ok_entangled hmk]
        exact List.Pairwise.nil
    | link g x1 y1 x2 y2 _ ih => exact inv_linkPairs ih _ _
    | unlink g x1 y1 x2 y2 _ ih => exact inv_erase ih _
    | iter g _ ih => exact inv_iterate ih
  · intro g x1 y1 x2 y2 hcase
    show linkPairs g.entangled ⟨x1, y1⟩ ⟨x2, y2⟩ = g.entangled
    unfold linkPairs
    split
    · rfl
    · rename_i hany
      rcases hcase with ⟨e, he, hpm⟩ | heq
      · exact absurd (List.any_eq_true.mpr ⟨e, he, by
          rcases hpm with hpm | hpm <;> simp [hpm]⟩) hany
      · rw [if_pos heq]

/-- Witness for `entanglement_exclusive`: the freshly constructed engine `gw`
(reachable via `mkEngine prgF cfg2`) satisfies the invariant, and a degenerate
self-link leaves its entanglement list unchanged. -/
theorem entanglement_exclusive_witness :
    Inv gw.entangled ∧ (linkE gw 0 0 0 0).entangled = gw.entangled :=
  ⟨entanglement_exclusive.1 gw (Reach.base prgF cfg2 none none none gw rfl),
   entanglement_exclusive.2 gw 0 0 0 0 (Or.inr rfl)⟩

-- List index bookkeeping for the write-locality arguments.

theorem myGetD_set_ne {α : Type} (l : List α) (i j : Nat) (hij : i ≠ j) (v d : α) :
    (l.set i v).getD j d = l.getD j d := by
  induction l generalizing i j with
  | nil => rfl
  | cons a t ih =>
    cases i with
    | zero =>
      cases j with
      | zero => exact absurd rfl hij
      | succ j' => simp
    | succ i' =>
      cases j with
      | zero => simp
      | succ j' =>
        simp only [List.set_cons_succ, List.getD_cons_succ]
        exact ih i' j' (fun hh => hij (by rw [hh]))

theorem myGetD_set_self {α : Type} (l : List α) (i : Nat) (hi : i < l.length)
    (v d : α) : (l.set i v).getD i d = v := by
  induction l generalizing i with
  | nil => simp at hi
  | cons a t ih =>
    cases i with
    | zero => rfl
    | succ i' =>
      simp only [List.set_cons_succ, List.getD_cons_succ]
      exact ih i' (by simpa using hi)

theorem mySet_oob {α : Type} (l : List α) (i : Nat) (hi : l.length ≤ i) (v : α) :
    l.set i v = l := by
  induction l generalizing i with
  | nil => rfl
  | cons a t ih =>
    cases i with
    | zero => simp at hi
    | succ i' =>
      simp only [List.set_cons_succ, List.cons.injEq, true_and]
      exact ih i' (by simpa using hi)

theorem myGetD_set_cases {α : Type} (l : List α) (i j : Nat) (v d : α) :
    (l.set i v).getD j d = l.getD j d ∨ (i = j ∧ (l.set i v).getD j d = v) := by
  by_cases hij : i = j
  · subst hij
    by_cases hi : i < l.length
    · exact Or.inr ⟨rfl, myGetD_set_self l i hi v d⟩
    · rw [mySet_oob l i (Nat.le_of_not_lt hi) v]
      exact Or.inl rfl
  · exact Or.inl (myGetD_set_ne l i j hij v d)

theorem myMem_set {α : Type} {r v : α} :
    ∀ (l : List α) (i : Nat), r ∈ l.set i v → r = v ∨ r ∈ l := by
  intro l
  induction l with
  | nil => intro i hr; simp at hr
  | cons a t ih =>
    intro i hr
    cases i with
    | zero =>
      rcases List.mem_cons.mp hr with hr | hr
      · exact Or.inl hr
      · exact Or.inr (List.mem_cons_of_mem a hr)
    | succ i' =>
      rcases List.mem_cons.mp hr with hr | hr
      · exact Or.inr (hr ▸ List.mem_cons_self a t)
      · rcases ih i' hr with hr | hr
        · exact Or.inl hr
        · exact Or.inr (List.mem_cons_of_mem a hr)

theorem toNat_emod_lt (a : Int) {m : Int} (hm : 0 < m) : (a % m).toNat < m.toNat := by
  have h1 := Int.emod_nonneg a (by omega : m ≠ 0)
  have h2 := Int.emod_lt_of_pos a hm
  omega

theorem emod_eq_of_toNat_eq {a b m : Int} (hm : 0 < m)
    (h : (a % m).toNat = (b % m).toNat) : a % m = b % m := by
  have h1 := Int.emod_nonneg a (by omega : m ≠ 0)
  have h2 := Int.emod_nonneg b (by omega : m ≠ 0)
  omega

theorem emod_add_right_congr {a b m : Int} (c : Int) (hab : a % m = b % m) :
    (a + c) % m = (b + c) % m := by
  rw [Int.add_emod, hab, ← Int.add_emod]

-- Wrapped read/write interaction.

theorem get2d_congr {cells : List (List CellState)} {w h : Int} {y x y' x' : Int}
    (hy : (y % h).toNat = (y' % h).toNat) (hx : (x % w).toNat = (x' % w).toNat) :
    get2d cells w h y x = get2d cells w h y' x' := by
  unfold get2d
  rw [hy, hx]

theorem get2d_congr2 {cells : List (List CellState)} {w h : Int} {y x y' x' : Int}
    (hy : y % h = y' % h) (hx : x % w = x' % w) :
    get2d cells w h y x = get2d cells w h y' x' :=
  get2d_congr (by rw [hy]) (by rw [hx])

theorem get2d_set2d_or (cells : List (List CellState)) (w h y x : Int)
    (v : CellState) (y' x' : Int) :
    get2d (set2d cells w h y x v) w h y' x' = get2d cells w h y' x' ∨
    ((y % h).toNat = (y' % h).toNat ∧ (x % w).toNat = (x' % w).toNat ∧
      get2d (set2d cells w h y x v) w h y' x' = v) := by
  unfold get2d set2d
  rcases myGetD_set_cases cells ((y % h).toNat) ((y' % h).toNat)
      ((cells.getD (y % h).toNat []).set ((x % w).toNat) v) [] with hrow | ⟨hyy, hrow⟩
  · rw [hrow]
    exact Or.inl rfl
  · rw [hrow]
    rcases myGetD_set_cases (cells.getD (y % h).toNat []) ((x % w).toNat)
        ((x' % w).toNat) v CellState.DEAD with hc | ⟨hxx, hc⟩
    · rw [hc, hyy]
      exact Or.inl rfl
    · exact Or.inr ⟨hyy, hxx, hc⟩

theorem get2d_set2d_ne {cells : List (List CellState)} {w h y x : Int}
    {v : CellState} {y' x' : Int}
    (hne : ¬((y % h).toNat = (y' % h).toNat ∧ (x % w).toNat = (x' % w).toNat)) :
    get2d (set2d cells w h y x v) w h y' x' = get2d cells w h y' x' := by
  rcases get2d_set2d_or cells w h y x v y' x' with hold | ⟨hyy, hxx, _⟩
  · exact hold
  · exact absurd ⟨hyy, hxx⟩ hne

theorem get2d_set2d_self {cells : List (List CellState)} {w h : Int}
    (hw : 0 < w) (hh : 0 < h) (hsh : ShapeOK w h cells) (y x : Int) (v : CellState) :
    get2d (set2d cells w h y x v) w h y x = v := by
  unfold get2d set2d
  have hry : (y % h).toNat < cells.length := by
    rw [hsh.1]
    exact toNat_emod_lt y hh
  rw [myGetD_set_self cells _ hry]
  have hmem : cells.getD (y % h).toNat [] ∈ cells := by
    rw [List.getD_eq_getElem cells [] hry]
    exact List.getElem_mem hry
  refine myGetD_set_self _ _ ?_ v CellState.DEAD
  rw [hsh.2 _ hmem]
  exact toNat_emod_lt x hw

theorem shapeOK_set2d {w h : Int} {cells : List (List CellState)}
    (hsh : ShapeOK w h cells) (y x : Int) (v : CellState) :
    ShapeOK w h (set2d cells w h y x v) := by
  constructor
  · rw [set2d, List.length_set]
    exact hsh.1
  · intro r hr
    simp only [set2d] at hr
    by_cases hry : (y % h).toNat < cells.length
    · rcases myMem_set _ _ hr with rfl | hr'
      · rw [List.length_set]
        have hmem : cells.getD (y % h).toNat [] ∈ cells := by
          rw [List.getD_eq_getElem cells [] hry]
          exact List.getElem_mem hry
        exact hsh.2 _ hmem
      · exact hsh.2 _ hr'
    · rw [mySet_oob _ _ (Nat.le_of_not_lt hry)] at hr
      exact hsh.2 _ hr

-- Neighbour enumeration as a map over the offset table.

theorem getNeighbours_map_form (g : Engine) (x y : Int) :
    getNeighbours g x y =
      nOffsets.map (fun o => (getCell g (y + o.2) (x + o.1), ⟨x + o.1, y + o.2⟩)) := by
  simp only [getNeighbours, nOffsets, List.map]
  norm_num [Int.sub_eq_add_neg]

theorem getNeighbours_mem_form {g : Engine} {x y : Int} {nb : CellState × Point}
    (h : nb ∈ getNeighbours g x y) :
    ∃ o ∈ nOffsets, nb = (getCell g (y + o.2) (x + o.1), ⟨x + o.1, y + o.2⟩) := by
  rw [getNeighbours_map_form] at h
  simp only [List.mem_map] at h
  obtain ⟨o, ho, rfl⟩ := h
  exact ⟨o, ho, rfl⟩

theorem nOffsets_neg : ∀ o ∈ nOffsets, ((-o.1, -o.2) : Int × Int) ∈ nOffsets := by
  decide

theorem aliveNb_congr {g : Engine} {x y x' y' : Int}
    (hx : x % g.width = x' % g.width) (hy : y % g.height = y' % g.height) :
    aliveNb g x y = aliveNb g x' y' := by
  rw [aliveNb, aliveNb, getNeighbours_map_form, getNeighbours_map_form,
    List.countP_map, List.countP_map]
  refine List.countP_congr ?_
  intro o ho
  have hcell : getCell g (y + o.2) (x + o.1) = getCell g (y' + o.2) (x' + o.1) :=
    get2d_congr2 (emod_add_right_congr o.2 hy) (emod_add_right_congr o.1 hx)
  simp [Function.comp, hcell]

-- linkPairs case analysis (helper versions for the fold lemmas).

theorem linkPairs_cases (ent : List (Point × Point)) (p q : Point) :
    linkPairs ent p q = ent ∨ linkPairs ent p q = ent ++ [(p, q)] := by
  unfold linkPairs
  split
  · exact Or.inl rfl
  · split
    · exact Or.inl rfl
    · exact Or.inr rfl

theorem linkPairs_noop_of_mem {ent : List (Point × Point)} {p : Point} (q : Point)
    (e : Point × Point) (he : e ∈ ent) (hpm : pmem p e = true) :
    linkPairs ent p q = ent := by
  unfold linkPairs
  rw [if_pos (List.any_eq_true.mpr ⟨e, he, by simp [hpm]⟩)]

-- Write locality of the collapse loop.

theorem entScan_next_preserved {g : Engine} {p : Point} {cy cx : Int}
    (hns : getCell g cy cx ≠ CellState.SUPERPOSITION) :
    ∀ (fuel i : Nat) (s : PassState),
      get2d (entScan g p fuel i s).next g.width g.height cy cx
        = get2d s.next g.width g.height cy cx := by
  intro fuel
  induction fuel with
  | zero => intro i s; rfl
  | succ fuel ih =>
    intro i s
    rw [entScan]
    rcases hie : s.ent[i]? with _ | e
    · rfl
    · by_cases hpm : pmem p e = true
      · simp only [hpm, if_true]
        rw [ih]
        dsimp only
        have key : ∀ oth : Point,
            get2d (if getCell g oth.y oth.x = CellState.SUPERPOSITION then
                     set2d s.next g.width g.height oth.y oth.x
                       (flipOf (get2d s.next g.width g.height p.y p.x))
                   else s.next) g.width g.height cy cx
              = get2d s.next g.width g.height cy cx := by
          intro oth
          split
          · rename_i hsup
            refine get2d_set2d_ne ?_
            rintro ⟨hyy, hxx⟩
            refine hns ?_
            simp only [getCell] at hsup ⊢
            rw [← get2d_congr hyy hxx]
            exact hsup
          · rfl
        exact key _
      · simp only [eq_false_of_ne_true hpm, Bool.false_eq_true, if_false]
        exact ih (i + 1) s

theorem shapeOK_entScan {g : Engine} {p : Point} :
    ∀ (fuel i : Nat) (s : PassState), ShapeOK g.width g.height s.next →
      ShapeOK g.width g.height (entScan g p fuel i s).next := by
  intro fuel
  induction fuel with
  | zero => intro i s hsh; exact hsh
  | succ fuel ih =>
    intro i s hsh
    rw [entScan]
    rcases hie : s.ent[i]? with _ | e
    · exact hsh
    · by_cases hpm : pmem p e = true
      · simp only [hpm, if_true]
        refine ih (i + 1) _ ?_
        dsimp only
        split <;> split <;> first
          | exact shapeOK_set2d hsh _ _ _
          | exact hsh
      · simp only [eq_false_of_ne_true hpm, Bool.false_eq_true, if_false]
        exact ih (i + 1) s hsh

-- Write locality and effect of the birth loop.

theorem shapeOK_birthFoldF {g : Engine} {x y : Int} {t : PassState}
    {nb : CellState × Point} (hsh : ShapeOK g.width g.height t.next) :
    ShapeOK g.width g.height (birthFoldF g x y t nb).next := by
  simp only [birthFoldF]
  split
  · exact shapeOK_set2d (shapeOK_set2d hsh _ _ _) _ _ _
  · exact hsh

theorem shapeOK_birthFold {g : Engine} {x y : Int} :
    ∀ (L : List (CellState × Point)) (t : PassState),
      ShapeOK g.width g.height t.next →
      ShapeOK g.width g.height (List.foldl (birthFoldF g x y) t L).next := by
  intro L
  induction L with
  | nil => intro t hsh; exact hsh
  | cons nb L ih =>
    intro t hsh
    rw [List.foldl_cons]
    exact ih _ (shapeOK_birthFoldF hsh)

theorem birthFold_sup_persists {g : Engine} {x y qy qx : Int} :
    ∀ (L : List (CellState × Point)) (t : PassState),
      get2d t.next g.width g.height qy qx = CellState.SUPERPOSITION →
      get2d (List.foldl (birthFoldF g x y) t L).next g.width g.height qy qx
        = CellState.SUPERPOSITION := by
  intro L
  induction L with
  | nil => intro t h; exact h
  | cons nb L ih =>
    intro t h
    rw [List.foldl_cons]
    apply ih
    simp only [birthFoldF]
    split
    · rcases get2d_set2d_or (set2d t.next g.width g.height y x CellState.SUPERPOSITION)
        g.width g.height nb.2.y nb.2.x CellState.SUPERPOSITION qy qx with hold | ⟨-, -, hv⟩
      · rw [hold]
        rcases get2d_set2d_or t.next g.width g.height y x CellState.SUPERPOSITION qy qx
          with hold2 | ⟨-, -, hv2⟩
        · rw [hold2]; exact h
        · exact hv2
      · exact hv
    · exact h

theorem birthFold_self_sup {g : Engine} {x y : Int} (hw : 0 < g.width)
    (hh : 0 < g.height) :
    ∀ (L : List (CellState × Point)) (t : PassState),
      (∃ nb ∈ L, nb.1 = CellState.ALIVE) → ShapeOK g.width g.height t.next →
      get2d (List.foldl (birthFoldF g x y) t L).next g.width g.height y x
        = CellState.SUPERPOSITION := by
  intro L
  induction L with
  | nil =>
    rintro t ⟨nb, hnb, -⟩ -
    simp at hnb
  | cons nb L ih =>
    rintro t hex hsh
    rw [List.foldl_cons]
    by_cases hal : nb.1 = CellState.ALIVE
    · apply birthFold_sup_persists
      simp only [birthFoldF, if_pos hal]
      rcases get2d_set2d_or (set2d t.next g.width g.height y x CellState.SUPERPOSITION)
        g.width g.height nb.2.y nb.2.x CellState.SUPERPOSITION y x with hold | ⟨-, -, hv⟩
      · rw [hold]
        exact get2d_set2d_self hw hh hsh y x _
      · exact hv
    · rcases hex with ⟨nb', hnb', hal'⟩
      rcases List.mem_cons.mp hnb' with rfl | hmem
      · exact absurd hal' hal
      · rw [show birthFoldF g x y t nb = t by simp only [birthFoldF, if_neg hal]]
        exact ih t ⟨nb', hmem, hal'⟩ hsh

theorem birthFold_sup_written {g : Engine} {x y : Int} (hw : 0 < g.width)
    (hh : 0 < g.height) :
    ∀ (L : List (CellState × Point)) (t : PassState) (pt : Point),
      (CellState.ALIVE, pt) ∈ L → ShapeOK g.width g.height t.next →
      get2d (List.foldl (birthFoldF g x y) t L).next g.width g.height pt.y pt.x
        = CellState.SUPERPOSITION := by
  intro L
  induction L with
  | nil =>
    rintro t pt h -
    simp at h
  | cons nb L ih =>
    intro t pt hmem hsh
    rw [List.foldl_cons]
    rcases List.mem_cons.mp hmem with heq | hmem'
    · apply birthFold_sup_persists
      rw [← heq]
      simp only [birthFoldF, if_pos rfl]
      exact get2d_set2d_self hw hh (shapeOK_set2d hsh y x _) pt.y pt.x _
    · exact ih _ pt hmem' (shapeOK_birthFoldF hsh)

theorem birthFold_next_preserved {g : Engine} {x y cy cx : Int}
    (hself : ¬((y % g.height).toNat = (cy % g.height).toNat ∧
              (x % g.width).toNat = (cx % g.width).toNat)) :
    ∀ (L : List (CellState × Point)) (t : PassState),
      (∀ nb ∈ L, nb.1 = CellState.ALIVE →
        ¬((nb.2.y % g.height).toNat = (cy % g.height).toNat ∧
          (nb.2.x % g.width).toNat = (cx % g.width).toNat)) →
      get2d (List.foldl (birthFoldF g x y) t L).next g.width g.height cy cx
        = get2d t.next g.width g.height cy cx := by
  intro L
  induction L with
  | nil => intro t _; rfl
  | cons nb L ih =>
    intro t hL
    rw [List.foldl_cons, ih _ (fun nb' h' => hL nb' (List.mem_cons_of_mem nb h'))]
    simp only [birthFoldF]
    split
    · rename_i hal
      rw [get2d_set2d_ne (hL nb (List.mem_cons_self nb L) hal), get2d_set2d_ne hself]
    · rfl

theorem birthFold_ent_or {g : Engine} {x y : Int} (nbs : List (CellState × Point)) :
    ∀ (L : List (CellState × Point)) (t : PassState) (ent0 : List (Point × Point)),
      (∀ nb ∈ L, nb ∈ nbs) →
      (t.ent = ent0 ∨ ∃ pt, (CellState.ALIVE, pt) ∈ nbs ∧
        t.ent = ent0 ++ [(⟨x, y⟩, pt)]) →
      (List.foldl (birthFoldF g x y) t L).ent = ent0 ∨
        ∃ pt, (CellState.ALIVE, pt) ∈ nbs ∧
          (List.foldl (birthFoldF g x y) t L).ent = ent0 ++ [(⟨x, y⟩, pt)] := by
  intro L
  induction L with
  | nil => intro t ent0 _ hI; exact hI
  | cons nb L ih =>
    intro t ent0 hsub hI
    rw [List.foldl_cons]
    refine ih _ ent0 (fun nb' h' => hsub nb' (List.mem_cons_of_mem nb h')) ?_
    by_cases hal : nb.1 = CellState.ALIVE
    · have hent : (birthFoldF g x y t nb).ent = linkPairs t.ent ⟨x, y⟩ nb.2 := by
        simp only [birthFoldF, if_pos hal]
      rcases hI with hI | ⟨pt, hpt, hI⟩
      · rcases linkPairs_cases t.ent ⟨x, y⟩ nb.2 with hc | hc
        · exact Or.inl (by rw [hent, hc, hI])
        · refine Or.inr ⟨nb.2, ?_, by rw [hent, hc, hI]⟩
          have hnb : ((CellState.ALIVE, nb.2) : CellState × Point) = nb := by
            rw [← hal]
          rw [hnb]
          exact hsub nb (List.mem_cons_self nb L)
      · refine Or.inr ⟨pt, hpt, ?_⟩
        rw [hent, hI]
        exact linkPairs_noop_of_mem nb.2 (⟨x, y⟩, pt)
          (List.mem_append_right _ (by simp)) (by simp [pmem])
    · have hid : birthFoldF g x y t nb = t := by simp only [birthFoldF, if_neg hal]
      rw [hid]
      exact hI

-- stepCell-level write locality and per-branch effects.

theorem shapeOK_stepCell {g : Engine} {s : PassState} (yx : Int × Int)
    (hsh : ShapeOK g.width g.height s.next) :
    ShapeOK g.width g.height (stepCell g s yx).next := by
  simp only [stepCell]
  by_cases h1 : getCell g yx.1 yx.2 = CellState.DEAD ∧
      (aliveNb g yx.2 yx.1 = 3 ∨ aliveNb g yx.2 yx.1 = 4)
  · rw [if_pos h1]
    split
    · exact shapeOK_birthFold _ _ (shapeOK_set2d hsh _ _ _)
    · exact shapeOK_set2d hsh _ _ _
  · rw [if_neg h1]
    by_cases h2 : getCell g yx.1 yx.2 = CellState.ALIVE ∧
        (5 < aliveNb g yx.2 yx.1 ∨ aliveNb g yx.2 yx.1 < 2)
    · rw [if_pos h2]
      exact shapeOK_set2d hsh _ _ _
    · rw [if_neg h2]
      by_cases h3 : getCell g yx.1 yx.2 = CellState.SUPERPOSITION ∧
          0 < aliveNb g yx.2 yx.1
      · rw [if_pos h3]
        exact shapeOK_entScan _ 0 _ (shapeOK_set2d hsh _ _ _)
      · rw [if_neg h3]
        exact hsh

theorem stepCell_next_preserved {g : Engine} (hw : 0 < g.width) (hh : 0 < g.height)
    {cy cx : Int} (s : PassState) (yx : Int × Int)
    (hpc : ¬((yx.1 % g.height).toNat = (cy % g.height).toNat ∧
             (yx.2 % g.width).toNat = (cx % g.width).toNat))
    (hns : getCell g cy cx ≠ CellState.SUPERPOSITION)
    (hguard : getCell g cy cx = CellState.ALIVE →
      ∀ o ∈ nOffsets, ¬(getCell g (cy + o.2) (cx + o.1) = CellState.DEAD ∧
        aliveNb g (cx + o.1) (cy + o.2) = 4)) :
    get2d (stepCell g s yx).next g.width g.height cy cx
      = get2d s.next g.width g.height cy cx := by
  simp only [stepCell]
  by_cases h1 : getCell g yx.1 yx.2 = CellState.DEAD ∧
      (aliveNb g yx.2 yx.1 = 3 ∨ aliveNb g yx.2 yx.1 = 4)
  · rw [if_pos h1]
    by_cases h4 : aliveNb g yx.2 yx.1 = 4
    · rw [if_pos h4]
      have hL : ∀ nb ∈ getNeighbours g yx.2 yx.1, nb.1 = CellState.ALIVE →
          ¬((nb.2.y % g.height).toNat = (cy % g.height).toNat ∧
            (nb.2.x % g.width).toNat = (cx % g.width).toNat) := by
        intro nb hnb hal
        rintro ⟨hyy, hxx⟩
        obtain ⟨o, ho, rfl⟩ := getNeighbours_mem_form hnb
        have hy0 : ((yx.1 + o.2) % g.height).toNat = (cy % g.height).toNat := hyy
        have hx0 : ((yx.2 + o.1) % g.width).toNat = (cx % g.width).toNat := hxx
        have hal0 : getCell g (yx.1 + o.2) (yx.2 + o.1) = CellState.ALIVE := hal
        have hy' : (yx.1 + o.2) % g.height = cy % g.height := emod_eq_of_toNat_eq hh hy0
        have hx' : (yx.2 + o.1) % g.width = cx % g.width := emod_eq_of_toNat_eq hw hx0
        have hALc : getCell g cy cx = CellState.ALIVE := by
          simp only [getCell] at hal0 ⊢
          rw [← get2d_congr2 hy' hx']
          exact hal0
        have hpy : yx.1 % g.height = (cy + -o.2) % g.height := by
          have h5 := emod_add_right_congr (-o.2) hy'
          rwa [add_neg_cancel_right] at h5
        have hpx : yx.2 % g.width = (cx + -o.1) % g.width := by
          have h5 := emod_add_right_congr (-o.1) hx'
          rwa [add_neg_cancel_right] at h5
        have hD : getCell g (cy + -o.2) (cx + -o.1) = CellState.DEAD := by
          simp only [getCell]
          rw [← get2d_congr2 hpy hpx]
          exact h1.1
        have hA4 : aliveNb g (cx + -o.1) (cy + -o.2) = 4 := by
          rw [← aliveNb_congr hpx hpy]
          exact h4
        exact hguard hALc (-o.1, -o.2) (nOffsets_neg o ho) ⟨hD, hA4⟩
      rw [birthFold_next_preserved hpc _ _ hL]
      exact get2d_set2d_ne hpc
    · rw [if_neg h4]
      exact get2d_set2d_ne hpc
  · rw [if_neg h1]
    by_cases h2 : getCell g yx.1 yx.2 = CellState.ALIVE ∧
        (5 < aliveNb g yx.2 yx.1 ∨ aliveNb g yx.2 yx.1 < 2)
    · rw [if_pos h2]
      exact get2d_set2d_ne hpc
    · rw [if_neg h2]
      by_cases h3 : getCell g yx.1 yx.2 = CellState.SUPERPOSITION ∧
          0 < aliveNb g yx.2 yx.1
      · rw [if_pos h3]
        rw [entScan_next_preserved hns]
        exact get2d_set2d_ne hpc
      · rw [if_neg h3]

theorem stepCell_death_self {g : Engine} (hw : 0 < g.width) (hh : 0 < g.height)
    {s : PassState} (hsh : ShapeOK g.width g.height s.next) (yx : Int × Int)
    (hal : getCell g yx.1 yx.2 = CellState.ALIVE)
    (hd : 5 < aliveNb g yx.2 yx.1 ∨ aliveNb g yx.2 yx.1 < 2) :
    get2d (stepCell g s yx).next g.width g.height yx.1 yx.2 = CellState.DEAD := by
  simp only [stepCell]
  rw [if_neg (by rintro ⟨hc, -⟩; rw [hal] at hc; exact CellState.noConfusion hc),
      if_pos ⟨hal, hd⟩]
  exact get2d_set2d_self hw hh hsh yx.1 yx.2 _

theorem stepCell_survive_self {g : Engine} {s : PassState} (yx : Int × Int)
    (hal : getCell g yx.1 yx.2 = CellState.ALIVE)
    (hs : ¬(5 < aliveNb g yx.2 yx.1 ∨ aliveNb g yx.2 yx.1 < 2)) :
    stepCell g s yx = s := by
  simp only [stepCell]
  rw [if_neg (by rintro ⟨hc, -⟩; rw [hal] at hc; exact CellState.noConfusion hc),
      if_neg (by rintro ⟨-, hdd⟩; exact hs hdd),
      if_neg (by rintro ⟨hc, -⟩; rw [hal] at hc; exact CellState.noConfusion hc)]

theorem stepCell_birth4_self {g : Engine} (hw : 0 < g.width) (hh : 0 < g.height)
    {s : PassState} (hsh : ShapeOK g.width g.height s.next) (yx : Int × Int)
    (hdead : getCell g yx.1 yx.2 = CellState.DEAD)
    (h4 : aliveNb g yx.2 yx.1 = 4) :
    get2d (stepCell g s yx).next g.width g.height yx.1 yx.2
      = CellState.SUPERPOSITION := by
  simp only [stepCell]
  rw [if_pos ⟨hdead, Or.inr h4⟩, if_pos h4]
  refine birthFold_self_sup hw hh _ _ ?_ (shapeOK_set2d hsh _ _ _)
  have hpos : 0 < (getNeighbours g yx.2 yx.1).countP
      (fun nb => nb.1 == CellState.ALIVE) := by
    have h5 : aliveNb g yx.2 yx.1 = 4 := h4
    rw [aliveNb] at h5
    omega
  obtain ⟨nb, hnb, hb⟩ := List.countP_pos_iff.mp hpos
  exact ⟨nb, hnb, by simpa using hb⟩

-- Row-major enumeration bookkeeping.

theorem rowMajor_mem_form {w h : Int} {p : Int × Int} (hp : p ∈ rowMajor w h) :
    ∃ yn xn : Nat, yn < h.toNat ∧ xn < w.toNat ∧ p = ((yn : Int), (xn : Int)) := by
  rw [rowMajor] at hp
  rcases List.mem_flatMap.mp hp with ⟨y, hy, hpin⟩
  rcases List.mem_map.mp hpin with ⟨x, hx, heq⟩
  exact ⟨y, x, List.mem_range.mp hy, List.mem_range.mp hx, heq.symm⟩

theorem mem_rowMajor {w h : Int} {cy cx : Int} (hcy : 0 ≤ cy) (hcy2 : cy < h)
    (hcx : 0 ≤ cx) (hcx2 : cx < w) : ((cy, cx) : Int × Int) ∈ rowMajor w h := by
  rw [rowMajor]
  refine List.mem_flatMap.mpr ⟨cy.toNat, List.mem_range.mpr (by omega), ?_⟩
  refine List.mem_map.mpr ⟨cx.toNat, List.mem_range.mpr (by omega), ?_⟩
  rw [Int.toNat_of_nonneg hcy, Int.toNat_of_nonneg hcx]

theorem rowMajor_nodup (w h : Int) : (rowMajor w h).Nodup := by
  rw [rowMajor, List.nodup_flatMap]
  constructor
  · intro y hy
    exact List.Nodup.map (fun a b hab => by simpa using hab) (List.nodup_range w.toNat)
  · refine List.Pairwise.imp ?_ (List.nodup_range h.toNat)
    intro a b hab
    intro z hza hzb
    rcases List.mem_map.mp hza with ⟨xa, -, rfl⟩
    rcases List.mem_map.mp hzb with ⟨xb, -, hzz⟩
    have h1 : (b : Int) = (a : Int) := congrArg Prod.fst hzz
    exact hab (by exact_mod_cast h1.symm)

theorem split_of_nodup_mem {α : Type} {l : List α} {a : α} (hnd : l.Nodup)
    (ha : a ∈ l) : ∃ s t, l = s ++ a :: t ∧ a ∉ s ∧ a ∉ t := by
  obtain ⟨s, t, rfl⟩ := List.append_of_mem ha
  rw [List.nodup_append] at hnd
  obtain ⟨-, h2, h3⟩ := hnd
  rw [List.nodup_cons] at h2
  exact ⟨s, t, rfl, fun hs => h3 hs (List.mem_cons_self a t), h2.1⟩

theorem rowMajor_idx_ne {w h : Int} (hw : 0 < w) (hh : 0 < h) {p : Int × Int}
    (hp : p ∈ rowMajor w h) {cy cx : Int} (hcy : 0 ≤ cy) (hcy2 : cy < h)
    (hcx : 0 ≤ cx) (hcx2 : cx < w) (hne : p ≠ ((cy, cx) : Int × Int)) :
    ¬((p.1 % h).toNat = (cy % h).toNat ∧ (p.2 % w).toNat = (cx % w).toNat) := by
  obtain ⟨yn, xn, hyn, hxn, rfl⟩ := rowMajor_mem_form hp
  rintro ⟨h1, h2⟩
  have h1' : (((yn : Int)) % h).toNat = (cy % h).toNat := h1
  have h2' : (((xn : Int)) % w).toNat = (cx % w).toNat := h2
  rw [Int.emod_eq_of_lt (Int.natCast_nonneg yn) (by omega), Int.emod_eq_of_lt hcy hcy2]
    at h1'
  rw [Int.emod_eq_of_lt (Int.natCast_nonneg xn) (by omega), Int.emod_eq_of_lt hcx hcx2]
    at h2'
  refine hne ?_
  have e1 : (yn : Int) = cy := by omega
  have e2 : (xn : Int) = cx := by omega
  rw [e1, e2]

theorem foldl_stepCell_preserved {g : Engine} (hw : 0 < g.width) (hh : 0 < g.height)
    {cy cx : Int} (hns : getCell g cy cx ≠ CellState.SUPERPOSITION)
    (hguard : getCell g cy cx = CellState.ALIVE →
      ∀ o ∈ nOffsets, ¬(getCell g (cy + o.2) (cx + o.1) = CellState.DEAD ∧
        aliveNb g (cx + o.1) (cy + o.2) = 4)) :
    ∀ (L : List (Int × Int)),
      (∀ q ∈ L, ¬((q.1 % g.height).toNat = (cy % g.height).toNat ∧
                  (q.2 % g.width).toNat = (cx % g.width).toNat)) →
      ∀ s : PassState,
        get2d (List.foldl (stepCell g) s L).next g.width g.height cy cx
          = get2d s.next g.width g.height cy cx := by
  intro L
  induction L with
  | nil => intro _ s; rfl
  | cons q L ih =>
    intro hL s
    rw [List.foldl_cons, ih (fun r hr => hL r (List.mem_cons_of_mem q hr))]
    exact stepCell_next_preserved hw hh s q (hL q (List.mem_cons_self q L)) hns hguard

theorem shapeOK_foldl_stepCell {g : Engine} :
    ∀ (L : List (Int × Int)) (s : PassState), ShapeOK g.width g.height s.next →
      ShapeOK g.width g.height (List.foldl (stepCell g) s L).next := by
  intro L
  induction L with
  | nil => intro s hsh; exact hsh
  | cons q L ih =>
    intro s hsh
    rw [List.foldl_cons]
    exact ih _ (shapeOK_stepCell q hsh)

/-- Claim C9, amended: for a previously-Alive in-range cell none of whose torus
neighbours is a previously-Dead cell with exactly 4 alive neighbours (such a
neighbour would overwrite it to Superposed via the birth rule), `iterate()`
gives it Dead when its alive-neighbour count is above 5 or below 2, and Alive
(carried forward, with no explicit survive branch) when the count is between 2
and 5 inclusive. -/
theorem alive_cell_fate (g : Engine) (hw : 0 < g.width) (hh : 0 < g.height)
    (hsh : ShapeOK g.width g.height g.cells) (cx cy : Int)
    (hcx : 0 ≤ cx) (hcx2 : cx < g.width) (hcy : 0 ≤ cy) (hcy2 : cy < g.height)
    (hal : getCell g cy cx = CellState.ALIVE)
    (hguard : ∀ o ∈ nOffsets,
      ¬(getCell g (cy + o.2) (cx + o.1) = CellState.DEAD ∧
        aliveNb g (cx + o.1) (cy + o.2) = 4)) :
    getCell (iterate g) cy cx =
      if 5 < aliveNb g cx cy ∨ aliveNb g cx cy < 2
      then CellState.DEAD else CellState.ALIVE := by
  have hns : getCell g cy cx ≠ CellState.SUPERPOSITION := by
    rw [hal]
    exact fun hc => CellState.noConfusion hc
  have hguard' : getCell g cy cx = CellState.ALIVE → ∀ o ∈ nOffsets,
      ¬(getCell g (cy + o.2) (cx + o.1) = CellState.DEAD ∧
        aliveNb g (cx + o.1) (cy + o.2) = 4) := fun _ => hguard
  obtain ⟨L1, L2, hsplit, hn1, hn2⟩ :=
    split_of_nodup_mem (rowMajor_nodup g.width g.height)
      (mem_rowMajor hcy hcy2 hcx hcx2)
  have hmem1 : ∀ q ∈ L1, q ∈ rowMajor g.width g.height := by
    rw [hsplit]
    intro q hq
    exact List.mem_append_left _ hq
  have hmem2 : ∀ q ∈ L2, q ∈ rowMajor g.width g.height := by
    rw [hsplit]
    intro q hq
    exact List.mem_append_right _ (List.mem_cons_of_mem _ hq)
  have hpc1 : ∀ q ∈ L1, ¬((q.1 % g.height).toNat = (cy % g.height).toNat ∧
      (q.2 % g.width).toNat = (cx % g.width).toNat) := fun q hq =>
    rowMajor_idx_ne hw hh (hmem1 q hq) hcy hcy2 hcx hcx2
      (fun he => hn1 (he ▸ hq))
  have hpc2 : ∀ q ∈ L2, ¬((q.1 % g.height).toNat = (cy % g.height).toNat ∧
      (q.2 % g.width).toNat = (cx % g.width).toNat) := fun q hq =>
    rowMajor_idx_ne hw hh (hmem2 q hq) hcy hcy2 hcx hcx2
      (fun he => hn2 (he ▸ hq))
  show get2d (runPass g).next g.width g.height cy cx = _
  rw [runPass, hsplit, List.foldl_append, List.foldl_cons]
  have hsh1 : ShapeOK g.width g.height
      (List.foldl (stepCell g) ⟨g.cells, g.entangled, g.rngIdx⟩ L1).next :=
    shapeOK_foldl_stepCell L1 _ hsh
  by_cases hd : 5 < aliveNb g cx cy ∨ aliveNb g cx cy < 2
  · rw [if_pos hd, foldl_stepCell_preserved hw hh hns hguard' L2 hpc2]
    exact stepCell_death_self hw hh hsh1 (cy, cx) hal hd
  · rw [if_neg hd, foldl_stepCell_preserved hw hh hns hguard' L2 hpc2,
        stepCell_survive_self (cy, cx) hal hd,
        foldl_stepCell_preserved hw hh hns hguard' L1 hpc1]
    exact hal

/-- Witness for `alive_cell_fate` at the 3×3 grid `g3w`, cell (1,1), which is
Alive with 2 alive neighbours and survives. -/
theorem alive_cell_fate_witness :
    (0 < g3w.width ∧ 0 < g3w.height ∧ ShapeOK g3w.width g3w.height g3w.cells ∧
     getCell g3w 1 1 = CellState.ALIVE ∧ aliveNb g3w 1 1 = 2 ∧
     (∀ o ∈ nOffsets, ¬(getCell g3w (1 + o.2) (1 + o.1) = CellState.DEAD ∧
        aliveNb g3w (1 + o.1) (1 + o.2) = 4))) ∧
    getCell (iterate g3w) 1 1 =
      (if 5 < aliveNb g3w 1 1 ∨ aliveNb g3w 1 1 < 2
       then CellState.DEAD else CellState.ALIVE) :=
  ⟨⟨by decide, by decide, by decide, by decide, by decide, by decide⟩,
   alive_cell_fate g3w (by decide) (by decide) (by decide) 1 1
     (by decide) (by decide) (by decide) (by decide) (by decide) (by decide)⟩

/-- Claim C1, amended: when a previously-Dead cell has exactly 4 alive
neighbours, its processing attempts a link with EACH alive neighbour in order
(not only the first), and unconditionally sets the birthing cell's and every
alive neighbour's next-snapshot entry to Superposed whether or not any link was
created; at most one new pair — whose first component is the birthing cell and
whose second is one of its alive neighbours — is appended by that processing;
and after the full `iterate()` the birthing cell's next state is Superposed
(never Alive). -/
theorem birth_four_superposition :
    (∀ (g : Engine) (s : PassState) (yx : Int × Int),
      0 < g.width → 0 < g.height → ShapeOK g.width g.height s.next →
      getCell g yx.1 yx.2 = CellState.DEAD → aliveNb g yx.2 yx.1 = 4 →
      (get2d (stepCell g s yx).next g.width g.height yx.1 yx.2
          = CellState.SUPERPOSITION ∧
       (∀ st pt, (st, pt) ∈ getNeighbours g yx.2 yx.1 → st = CellState.ALIVE →
          get2d (stepCell g s yx).next g.width g.height pt.y pt.x
            = CellState.SUPERPOSITION) ∧
       ((stepCell g s yx).ent = s.ent ∨
        ∃ pt, (CellState.ALIVE, pt) ∈ getNeighbours g yx.2 yx.1 ∧
          (stepCell g s yx).ent = s.ent ++ [(⟨yx.2, yx.1⟩, pt)]))) ∧
    (∀ (g : Engine) (cx cy : Int),
      0 < g.width → 0 < g.height → ShapeOK g.width g.height g.cells →
      0 ≤ cx → cx < g.width → 0 ≤ cy → cy < g.height →
      getCell g cy cx = CellState.DEAD → aliveNb g cx cy = 4 →
      getCell (iterate g) cy cx = CellState.SUPERPOSITION) := by
  constructor
  · intro g s yx hw hh hsh hdead h4
    have hstep : stepCell g s yx = List.foldl (birthFoldF g yx.2 yx.1)
        ⟨set2d s.next g.width g.height yx.1 yx.2 CellState.ALIVE, s.ent, s.idx⟩
        (getNeighbours g yx.2 yx.1) := by
      simp only [stepCell]
      rw [if_pos ⟨hdead, Or.inr h4⟩, if_pos h4]
    refine ⟨stepCell_birth4_self hw hh hsh yx hdead h4, ?_, ?_⟩
    · intro st pt hmem hst
      subst hst
      rw [hstep]
      exact birthFold_sup_written hw hh _ _ pt hmem (shapeOK_set2d hsh _ _ _)
    · rw [hstep]
      exact birthFold_ent_or (getNeighbours g yx.2 yx.1) _ _ s.ent
        (fun nb hnb => hnb) (Or.inl rfl)
  · intro g cx cy hw hh hsh hcx hcx2 hcy hcy2 hdead h4
    have hns : getCell g cy cx ≠ CellState.SUPERPOSITION := by
      rw [hdead]
      exact fun hc => CellState.noConfusion hc
    have hguard' : getCell g cy cx = CellState.ALIVE → ∀ o ∈ nOffsets,
        ¬(getCell g (cy + o.2) (cx + o.1) = CellState.DEAD ∧
          aliveNb g (cx + o.1) (cy + o.2) = 4) := fun hAL =>
      CellState.noConfusion (hdead.symm.trans hAL)
    obtain ⟨L1, L2, hsplit, hn1, hn2⟩ :=
      split_of_nodup_mem (rowMajor_nodup g.width g.height)
        (mem_rowMajor hcy hcy2 hcx hcx2)
    have hmem2 : ∀ q ∈ L2, q ∈ rowMajor g.width g.height := by
      rw [hsplit]
      intro q hq
      exact List.mem_append_right _ (List.mem_cons_of_mem _ hq)
    have hpc2 : ∀ q ∈ L2, ¬((q.1 % g.height).toNat = (cy % g.height).toNat ∧
        (q.2 % g.width).toNat = (cx % g.width).toNat) := fun q hq =>
      rowMajor_idx_ne hw hh (hmem2 q hq) hcy hcy2 hcx hcx2
        (fun he => hn2 (he ▸ hq))
    show get2d (runPass g).next g.width g.height cy cx = _
    rw [runPass, hsplit, List.foldl_append, List.foldl_cons,
        foldl_stepCell_preserved hw hh hns hguard' L2 hpc2]
    exact stepCell_birth4_self hw hh (shapeOK_foldl_stepCell L1 _ hsh)
      (cy, cx) hdead h4

/-- Witness for `birth_four_superposition` at `g5`: the centre (2,2) is dead
with exactly 4 alive neighbours and ends Superposed after one `iterate()`. -/
theorem birth_four_superposition_witness :
    (0 < g5.width ∧ 0 < g5.height ∧ ShapeOK g5.width g5.height g5.cells ∧
     (0 : Int) ≤ 2 ∧ (2 : Int) < g5.width ∧ (2 : Int) < g5.height ∧
     getCell g5 2 2 = CellState.DEAD ∧ aliveNb g5 2 2 = 4) ∧
    getCell (iterate g5) 2 2 = CellState.SUPERPOSITION :=
  ⟨⟨by decide, by decide, by decide, by decide, by decide, by decide,
    by decide, by decide⟩,
   birth_four_superposition.2 g5 2 2 (by decide) (by decide) (by decide)
     (by decide) (by decide) (by decide) (by decide) (by decide) (by decide)⟩

end IGA



